import Mathlib

/-!
Verification of the `stuart` live-trading decision engine.

This file gives a shallow embedding, over the real numbers, of the
quantitative core of the repository:

* `fees.py`    — `kalshi_fee` (exact `Decimal` arithmetic, ceiling to cents);
* `kelly.py`   — `_log_return_moments`, `_drawdown_prob`,
                 `max_kelly_for_drawdown_constraint`;
* `entry.py`   — `is_effectively_locked`, `wp_survival_probability`,
                 `wp_volatility_remaining`, `_zero_sizing`, `entry_quality`;
* `config.py`  — the constants consumed by the engine.

Python `float` arithmetic is idealized as exact real arithmetic; `Decimal`
arithmetic in `fees.py` is exact by construction.  The two scipy calls that
the engine makes are not code of this repository, so they enter the
embedding as parameters:

* `Φ : ℝ → ℝ` stands for `scipy.stats.norm.cdf`; theorems that need nothing
  from it quantify over it, and concrete witnesses may instantiate it with
  any function at all, since the properties proved there do not depend on it.
* `findRoot : (ℝ → ℝ) → ℝ → ℝ → Option ℝ` stands for `scipy.optimize.brentq`
  together with the `try/except ValueError` wrapper in `kelly.py`
  (`none` is the `ValueError` branch).  `BrentqSpec` captures brentq's
  documented contract: a returned root lies within the supplied bracket.

Python `round(x, n)` (round-half-to-even on the scaled value) is modelled by
`pyRound`/`roundTo`, and `Decimal.quantize(0.01, ROUND_CEILING)` by `ceilCent`.
-/

namespace Stuart

noncomputable section

/-- Python `round` on a real number: round half to even.
On a non-tie `round x = ⌊x + 1/2⌋`; on a tie (fractional part exactly 1/2)
Python rounds to the even neighbour, which is `2 * ⌊x/2 + 1/2⌋`. -/
def pyRound (x : ℝ) : ℤ :=
  if Int.fract x = 1/2 then 2 * ⌊x / 2 + 1 / 2⌋ else round x

/-- Python `round(x, n)` for `n` decimal digits. -/
def roundTo (n : ℕ) (x : ℝ) : ℝ := (pyRound (x * 10 ^ n) : ℝ) / 10 ^ n

/-- `Decimal.quantize(Decimal("0.01"), rounding=ROUND_CEILING)`:
round up to the next cent. -/
def ceilCent (x : ℝ) : ℝ := (⌈x * 100⌉ : ℝ) / 100

/-! ### config.py -/

def BANKROLL : ℝ := 288.0
def USE_MAKER : Bool := true
def MAX_TRADE : ℝ := 20.0
def MIN_SURVIVAL : ℝ := 0.70
def MIN_EDGE : ℝ := 0.06
def MIN_PRICE : ℝ := 75

/-! ### fees.py -/

def _TAKER_RATE : ℝ := 0.07
def _MAKER_RATE : ℝ := 0.0175

/-- The price-normalization heuristic used throughout the code base:
`price / 100 if price > 1 else price`. -/
def normPrice (price : ℝ) : ℝ := if 1 < price then price / 100 else price

/-- `fees.kalshi_fee(contracts, price, maker)`:
`rate * c * p * (1 - p)` quantized upward to a cent, where `p` is the
normalized price.  The `Decimal(str(...))` round-trips in the source are
identities in the exact-real idealization. -/
def kalshi_fee (contracts : ℤ) (price : ℝ) (maker : Bool) : ℝ :=
  let rate := if maker then _MAKER_RATE else _TAKER_RATE
  let p := normPrice price
  ceilCent (rate * (contracts : ℝ) * p * (1 - p))

/-! ### kelly.py -/

structure KellyResult where
  valid : Bool
  f_max : ℝ
  f_star : ℝ
  kelly_multiplier : ℝ
  /-- present only on the `valid` return paths of the source dict -/
  drawdown_prob : Option ℝ
  reason : String

/-- `kelly._log_return_moments(p, b, f)`. -/
def _log_return_moments (p b f : ℝ) : ℝ × ℝ :=
  let q := 1 - p
  let mu := f * (b * p - q) - f ^ 2 * (b ^ 2 * p + q) / 2
  let var := f ^ 2 * (b ^ 2 * p + q) - (f * (b * p - q)) ^ 2
  (mu, var)

/-- `kelly._drawdown_prob(p, b, f, D, n_bets)`. -/
def _drawdown_prob (p b f D : ℝ) (n_bets : ℤ) : ℝ :=
  let mu := (_log_return_moments p b f).1
  let var := (_log_return_moments p b f).2
  if mu ≤ 0 ∨ var ≤ 0 then 1
  else Real.exp (-2 * mu * D / var) * (1 - Real.exp (-(n_bets : ℝ) * mu))

/-- The shape of `scipy.optimize.brentq` as used by `kelly.py`:
given the objective and the two bracket endpoints, either a root
(`some r`) or the `ValueError` branch (`none`). -/
def FindRoot : Type := (ℝ → ℝ) → ℝ → ℝ → Option ℝ

/-- Modelled from the spec: the documented contract of `scipy.optimize.brentq`
(not code of this repository) — when it returns instead of raising, the
returned root lies within the bracket `[a, b]` it was given. -/
def BrentqSpec (fr : FindRoot) : Prop :=
  ∀ g a b r, fr g a b = some r → a ≤ r ∧ r ≤ b

/-- Modelled from the spec: facts about the standard normal CDF Φ of §4.2
(`scipy.stats.norm.cdf`, not code of this repository) that the analysis
below uses.  All three hold for the standard normal distribution:
point symmetry `Φ(-x) = 1 - Φ(x)`; monotonicity; and the tangent-line
bound `Φ(x) ≤ 1/2 + 0.4·x` for `x ≥ 0`, since the density is bounded by
`φ(0) = 1/√(2π) < 0.4`. -/
def NormCdfSpec (Φ : ℝ → ℝ) : Prop :=
  (∀ x, Φ (-x) = 1 - Φ x) ∧ Monotone Φ ∧ ∀ x, 0 ≤ x → Φ x ≤ 1/2 + 0.4 * x

/-- `kelly.max_kelly_for_drawdown_constraint(p, b, D, confidence, n_bets)`.
The Python defaults are `D=0.25, confidence=0.95, n_bets=250`; callers in
this file always pass them explicitly. -/
def max_kelly_for_drawdown_constraint (fr : FindRoot)
    (p b D confidence : ℝ) (n_bets : ℤ) : KellyResult :=
  let alpha := 1 - confidence
  let f_star := (b * p - (1 - p)) / b
  if f_star ≤ 0 then
    { valid := false, reason := "no edge",
      f_max := 0, f_star := f_star, kelly_multiplier := 0,
      drawdown_prob := none }
  else if _drawdown_prob p b f_star D n_bets ≤ alpha then
    { valid := true,
      f_max := roundTo 4 f_star,
      f_star := roundTo 4 f_star,
      kelly_multiplier := 1,
      drawdown_prob := some (roundTo 4 (_drawdown_prob p b f_star D n_bets)),
      reason := "full Kelly satisfies constraint" }
  else
    match fr (fun f => _drawdown_prob p b f D n_bets - alpha) 1e-6 f_star with
    | none =>
      { valid := false, reason := "no solution",
        f_max := 0, f_star := f_star, kelly_multiplier := 0,
        drawdown_prob := none }
    | some f_max =>
      { valid := true,
        f_max := roundTo 4 f_max,
        f_star := roundTo 4 f_star,
        kelly_multiplier := roundTo 4 (f_max / f_star),
        drawdown_prob := some (roundTo 4 (_drawdown_prob p b f_max D n_bets)),
        reason := "constrained by drawdown limit" }

/-! ### entry.py -/

/-- `entry.is_effectively_locked(score_diff, seconds_remaining)`. -/
def is_effectively_locked (score_diff seconds_remaining : ℤ) : Bool :=
  if seconds_remaining ≤ 0 then true
  else ((seconds_remaining : ℝ) / 60 * 0.3 ≤ (score_diff : ℝ) : Bool)

/-- `entry.wp_survival_probability(p_current, p_floor, seconds_remaining,
score_diff)`, with `Φ` standing for `scipy.stats.norm.cdf`.  `score_diff`
is unused by the source ("kept for future score-conditional models"). -/
def wp_survival_probability (Φ : ℝ → ℝ)
    (p_current p_floor : ℝ) (seconds_remaining score_diff : ℤ) : ℝ :=
  if seconds_remaining ≤ 0 then (if p_floor ≤ p_current then 1 else 0)
  else
    let tau := (seconds_remaining : ℝ) / 2880
    let wp_vol := 0.28 * Real.sqrt tau *
      Real.sqrt (max 0 (p_current * (1 - p_current) * 4))
    if wp_vol < 1e-6 then (if p_floor ≤ p_current then 1 else 0)
    else
      let z := (p_current - p_floor) / wp_vol
      let survival := Φ z - Real.exp (-2 * z ^ 2) * Φ (-z)
      max 0 (min 1 survival)

/-- `entry.wp_volatility_remaining(p_current, seconds_remaining)`. -/
def wp_volatility_remaining (p_current : ℝ) (seconds_remaining : ℤ) : ℝ :=
  let tau := (seconds_remaining : ℝ) / 2880
  let base := p_current * (1 - p_current)
  roundTo 4 (Real.sqrt (max 0 (base * tau)) * 0.85)

/-- The recommendation strings produced by `entry.py`, one constructor per
f-string, carrying the values interpolated into the string:

* `skipBelowZone`          — `"SKIP — below target zone"`
* `skipFeeExceedsProfit`   — `"SKIP — fee exceeds profit"`
* `skipEdge e m`           — `f"SKIP — edge {e:+.1%} < {m:.0%} min"`
* `waitPeriod q lead have` — `f"WAIT — Q{q} needs +{lead:.0f}pt lead (have {have:+d})"`
* `strongEntry`            — `"★ STRONG ENTRY"`
* `enter`                  — `"ENTER"`
* `waitSurvival s m`       — `f"WAIT — survival {s:.0%} < {m:.0%}"`
* `marginal`               — `"MARGINAL"`
* `skip`                   — `"SKIP"`
-/
inductive Recommendation where
  | skipBelowZone
  | skipFeeExceedsProfit
  | skipEdge (raw_edge min_edge : ℝ)
  | waitPeriod (period : ℤ) (required_lead : ℝ) (score_diff : ℤ)
  | strongEntry
  | enter
  | waitSurvival (survival min_survival : ℝ)
  | marginal
  | skip

/-- Whether the rendered recommendation string contains `"SKIP"`. -/
def Recommendation.mentionsSkip : Recommendation → Bool
  | .skipBelowZone => true
  | .skipFeeExceedsProfit => true
  | .skipEdge _ _ => true
  | .skip => true
  | _ => false

/-- Whether the rendered recommendation string contains `"WAIT"`. -/
def Recommendation.mentionsWait : Recommendation → Bool
  | .waitPeriod _ _ _ => true
  | .waitSurvival _ _ => true
  | _ => false

/-- The dict returned by `entry_quality` / `_zero_sizing`. -/
structure EntryDecision where
  valid : Bool
  score : ℝ
  recommendation : Recommendation
  raw_edge : ℝ
  survival : ℝ
  vol_remaining : ℝ
  velocity : ℝ
  f_max : ℝ
  f_star : ℝ
  kelly_multiplier : ℝ
  dollars : ℝ
  contracts : ℤ
  ev : ℝ

/-- `entry._zero_sizing(recommendation, raw_edge, survival, vol_remaining,
velocity, score=0.0)`; the Python default `score=0.0` is passed explicitly
by every call site below. -/
def _zero_sizing (recommendation : Recommendation)
    (raw_edge survival vol_remaining velocity score : ℝ) : EntryDecision :=
  { valid := true
    score := score
    recommendation := recommendation
    raw_edge := roundTo 4 raw_edge
    survival := roundTo 4 survival
    vol_remaining := vol_remaining
    velocity := roundTo 3 velocity
    f_max := 0
    f_star := 0
    kelly_multiplier := 0
    dollars := 0
    contracts := 0
    ev := 0 }

/-- The "Full evaluation" tail of `entry.entry_quality` (the code after the
four gates), factored out over the values `entry_quality` has computed by
that point: Kelly sizing, the four sub-scores and the weighted composite
score, position sizing, and the recommendation label.
`int(dollars / price)` truncates toward zero, which under the enclosing
`max(0, ·)` agrees with `max 0 ⌊dollars / price⌋`. -/
def fullEvaluation (fr : FindRoot)
    (p_current price net_win raw_edge survival vol_remaining vel_norm
      bankroll min_survival : ℝ) : EntryDecision :=
  let kelly_c : KellyResult :=
    if 0 < net_win ∧ 0 < raw_edge then
      let net_loss := price
      let b := net_win / net_loss
      max_kelly_for_drawdown_constraint fr p_current b 0.25 0.95 250
    else
      { valid := false, f_max := 0, f_star := 0, kelly_multiplier := 0,
        drawdown_prob := none, reason := "no edge" }
  -- Composite score 0-100
  let edge_score := min 1 (max 0 (raw_edge / 0.15))
  let survival_score := max 0 ((survival - min_survival) / (1 - min_survival))
  let velocity_score := vel_norm
  let kelly_score := if kelly_c.valid then min 1 (kelly_c.f_max / 0.10) else 0
  let score := roundTo 1
    ((0.30 * edge_score + 0.40 * survival_score +
      0.20 * velocity_score + 0.10 * kelly_score) * 100)
  -- Position sizing
  let sizing : ℝ × ℤ × ℝ :=
    if kelly_c.valid ∧ 0 < kelly_c.f_max then
      let raw_dollars := bankroll * kelly_c.f_max
      let dollars := roundTo 2 (min raw_dollars MAX_TRADE)
      let contracts := max 0 ⌊dollars / price⌋
      let ev := roundTo 2
        ((p_current * net_win - (1 - p_current) * price) * (contracts : ℝ))
      (dollars, contracts, ev)
    else (0, 0, 0)
  -- Recommendation label
  let recommendation : Recommendation :=
    if 70 ≤ score ∧ min_survival ≤ survival then .strongEntry
    else if 50 ≤ score ∧ min_survival ≤ survival then .enter
    else if survival < min_survival then .waitSurvival survival min_survival
    else if 30 ≤ score then .marginal
    else .skip
  { valid := true
    score := score
    recommendation := recommendation
    raw_edge := roundTo 4 raw_edge
    survival := roundTo 4 survival
    vol_remaining := vol_remaining
    velocity := roundTo 3 vel_norm
    f_max := kelly_c.f_max
    f_star := kelly_c.f_star
    kelly_multiplier := kelly_c.kelly_multiplier
    dollars := sizing.1
    contracts := sizing.2.1
    ev := sizing.2.2 }

/-- `entry.entry_quality(p_current, kalshi_ask, seconds_remaining, score_diff,
period, bankroll=BANKROLL, maker=USE_MAKER, min_edge=MIN_EDGE,
min_survival=MIN_SURVIVAL)`.  `Φ` and `fr` are the scipy collaborators.
Python defaults are passed explicitly by the theorems below.
The code after the gates is `fullEvaluation` above. -/
def entry_quality (Φ : ℝ → ℝ) (fr : FindRoot)
    (p_current kalshi_ask : ℝ) (seconds_remaining score_diff period : ℤ)
    (bankroll : ℝ) (maker : Bool) (min_edge min_survival : ℝ) :
    EntryDecision :=
  let price := normPrice kalshi_ask
  let fee := kalshi_fee 1 kalshi_ask maker
  let net_win := (1 - price) - fee
  let raw_edge := p_current - price
  let vol_remaining := wp_volatility_remaining p_current seconds_remaining
  let vel_norm := min 1 (3600 / ((max seconds_remaining 60 : ℤ) : ℝ))
  let survival := wp_survival_probability Φ p_current (price + 0.02)
    seconds_remaining score_diff
  -- Hard block 1: below target price zone
  if price < MIN_PRICE / 100 then
    _zero_sizing .skipBelowZone raw_edge survival vol_remaining vel_norm 0
  -- Hard block 2: fee exceeds profit
  else if net_win ≤ 0 then
    _zero_sizing .skipFeeExceedsProfit raw_edge survival vol_remaining vel_norm 0
  -- Hard block 3: edge at or below minimum
  else if raw_edge ≤ min_edge then
    _zero_sizing (.skipEdge raw_edge min_edge)
      raw_edge survival vol_remaining vel_norm 0
  -- Period gate: early game requires blowout lead
  else if period < 4 ∧ ¬ is_effectively_locked score_diff seconds_remaining then
    let minutes_remaining := (seconds_remaining : ℝ) / 60
    let required_lead := minutes_remaining * 0.3
    _zero_sizing (.waitPeriod period required_lead score_diff)
      raw_edge survival vol_remaining vel_norm 0
  else
    fullEvaluation fr p_current price net_win raw_edge survival vol_remaining
      vel_norm bankroll min_survival

/-! ### Exception-checked variants

Python raises `ZeroDivisionError` on a zero divisor and `ValueError` on
`math.sqrt` of a negative number.  The following `Except`-valued copies of
the engine perform exactly the same computations but check every division
whose divisor is not a non-zero literal, and every square root (divisions
by the literals `100`, `2880`, `60`, `0.15`, `0.10` cannot raise and stay
pure).  `entry_qualityE_ok`/`max_kellyE_ok` below prove they always return
`Except.ok` of the unchecked result — i.e. no exception path is reachable. -/

/-- Division, checked the way Python would raise `ZeroDivisionError`. -/
def divE (a b : ℝ) : Except String ℝ :=
  if b = 0 then .error "ZeroDivisionError" else .ok (a / b)

/-- `math.sqrt`, checked the way Python raises on a negative argument. -/
def sqrtE (x : ℝ) : Except String ℝ :=
  if x < 0 then .error "math domain error" else .ok (Real.sqrt x)

/-- Checked `normPrice` (the `price / 100` branch uses a literal divisor,
checked anyway for completeness). -/
def normPriceE (price : ℝ) : Except String ℝ :=
  if 1 < price then divE price 100 else .ok price

/-- Checked `kalshi_fee`. -/
def kalshi_feeE (contracts : ℤ) (price : ℝ) (maker : Bool) :
    Except String ℝ := do
  let rate := if maker then _MAKER_RATE else _TAKER_RATE
  let p ← normPriceE price
  pure (ceilCent (rate * (contracts : ℝ) * p * (1 - p)))

/-- Checked `_drawdown_prob`: the division `-2 μ D / σ²` only happens on the
branch where `σ² > 0`. -/
def _drawdown_probE (p b f D : ℝ) (n_bets : ℤ) : Except String ℝ :=
  let mu := (_log_return_moments p b f).1
  let var := (_log_return_moments p b f).2
  if mu ≤ 0 ∨ var ≤ 0 then pure 1
  else do
    let r ← divE (-2 * mu * D) var
    pure (Real.exp r * (1 - Real.exp (-(n_bets : ℝ) * mu)))

/-- Checked `max_kelly_for_drawdown_constraint`: checks `f_star = edge / b`
and `f_max / f_star`; an unbracketed root is already an explicit `none`
branch of the oracle, not an exception escaping the function. -/
def max_kelly_for_drawdown_constraintE (fr : FindRoot)
    (p b D confidence : ℝ) (n_bets : ℤ) : Except String KellyResult := do
  let alpha := 1 - confidence
  let f_star ← divE (b * p - (1 - p)) b
  if f_star ≤ 0 then
    pure { valid := false, reason := "no edge",
           f_max := 0, f_star := f_star, kelly_multiplier := 0,
           drawdown_prob := none }
  else do
    let dd ← _drawdown_probE p b f_star D n_bets
    if dd ≤ alpha then
      pure { valid := true,
             f_max := roundTo 4 f_star,
             f_star := roundTo 4 f_star,
             kelly_multiplier := 1,
             drawdown_prob := some (roundTo 4 dd),
             reason := "full Kelly satisfies constraint" }
    else
      match fr (fun f => _drawdown_prob p b f D n_bets - alpha) 1e-6 f_star with
      | none =>
        pure { valid := false, reason := "no solution",
               f_max := 0, f_star := f_star, kelly_multiplier := 0,
               drawdown_prob := none }
      | some f_max => do
        let km ← divE f_max f_star
        let dd2 ← _drawdown_probE p b f_max D n_bets
        pure { valid := true,
               f_max := roundTo 4 f_max,
               f_star := roundTo 4 f_star,
               kelly_multiplier := roundTo 4 km,
               drawdown_prob := some (roundTo 4 dd2),
               reason := "constrained by drawdown limit" }

/-- Checked `wp_survival_probability`: `√τ` is only reached with
`seconds_remaining > 0`, and `z = (p - p_floor) / σ` only on the branch
where `σ ≥ 1e-6`. -/
def wp_survival_probabilityE (Φ : ℝ → ℝ)
    (p_current p_floor : ℝ) (seconds_remaining score_diff : ℤ) :
    Except String ℝ :=
  if seconds_remaining ≤ 0 then pure (if p_floor ≤ p_current then 1 else 0)
  else do
    let tau ← divE (seconds_remaining : ℝ) 2880
    let r1 ← sqrtE tau
    let r2 ← sqrtE (max 0 (p_current * (1 - p_current) * 4))
    let wp_vol := 0.28 * r1 * r2
    if wp_vol < 1e-6 then pure (if p_floor ≤ p_current then 1 else 0)
    else do
      let z ← divE (p_current - p_floor) wp_vol
      pure (max 0 (min 1 (Φ z - Real.exp (-2 * z ^ 2) * Φ (-z))))

/-- Checked `wp_volatility_remaining`: the square root is guarded by
`max(0, ·)` in the source. -/
def wp_volatility_remainingE (p_current : ℝ) (seconds_remaining : ℤ) :
    Except String ℝ := do
  let tau ← divE (seconds_remaining : ℝ) 2880
  let root ← sqrtE (max 0 (p_current * (1 - p_current) * tau))
  pure (roundTo 4 (root * 0.85))

/-- Checked `fullEvaluation`: checks `b = net_win / net_loss`,
`(survival - min_survival) / (1 - min_survival)` and
`contracts = dollars / price`. -/
def fullEvaluationE (fr : FindRoot)
    (p_current price net_win raw_edge survival vol_remaining vel_norm
      bankroll min_survival : ℝ) : Except String EntryDecision := do
  let kelly_c ←
    if 0 < net_win ∧ 0 < raw_edge then do
      let net_loss := price
      let b ← divE net_win net_loss
      max_kelly_for_drawdown_constraintE fr p_current b 0.25 0.95 250
    else
      pure { valid := false, f_max := 0, f_star := 0, kelly_multiplier := 0,
             drawdown_prob := none, reason := "no edge" }
  let edge_score := min 1 (max 0 (raw_edge / 0.15))
  let sq ← divE (survival - min_survival) (1 - min_survival)
  let survival_score := max 0 sq
  let velocity_score := vel_norm
  let kelly_score := if kelly_c.valid then min 1 (kelly_c.f_max / 0.10) else 0
  let score := roundTo 1
    ((0.30 * edge_score + 0.40 * survival_score +
      0.20 * velocity_score + 0.10 * kelly_score) * 100)
  let sizing ←
    if kelly_c.valid ∧ 0 < kelly_c.f_max then do
      let raw_dollars := bankroll * kelly_c.f_max
      let dollars := roundTo 2 (min raw_dollars MAX_TRADE)
      let cq ← divE dollars price
      let contracts := max 0 ⌊cq⌋
      let ev := roundTo 2
        ((p_current * net_win - (1 - p_current) * price) * (contracts : ℝ))
      pure ((dollars, contracts, ev) : ℝ × ℤ × ℝ)
    else pure ((0, 0, 0) : ℝ × ℤ × ℝ)
  let recommendation : Recommendation :=
    if 70 ≤ score ∧ min_survival ≤ survival then .strongEntry
    else if 50 ≤ score ∧ min_survival ≤ survival then .enter
    else if survival < min_survival then .waitSurvival survival min_survival
    else if 30 ≤ score then .marginal
    else .skip
  pure { valid := true
         score := score
         recommendation := recommendation
         raw_edge := roundTo 4 raw_edge
         survival := roundTo 4 survival
         vol_remaining := vol_remaining
         velocity := roundTo 3 vel_norm
         f_max := kelly_c.f_max
         f_star := kelly_c.f_star
         kelly_multiplier := kelly_c.kelly_multiplier
         dollars := sizing.1
         contracts := sizing.2.1
         ev := sizing.2.2 }

/-- Checked `entry_quality`: checks the velocity divisor
`max(seconds_remaining, 60)` in addition to everything above. -/
def entry_qualityE (Φ : ℝ → ℝ) (fr : FindRoot)
    (p_current kalshi_ask : ℝ) (seconds_remaining score_diff period : ℤ)
    (bankroll : ℝ) (maker : Bool) (min_edge min_survival : ℝ) :
    Except String EntryDecision := do
  let price ← normPriceE kalshi_ask
  let fee ← kalshi_feeE 1 kalshi_ask maker
  let net_win := (1 - price) - fee
  let raw_edge := p_current - price
  let vol_remaining ← wp_volatility_remainingE p_current seconds_remaining
  let vq ← divE 3600 ((max seconds_remaining 60 : ℤ) : ℝ)
  let vel_norm := min 1 vq
  let survival ← wp_survival_probabilityE Φ p_current (price + 0.02)
    seconds_remaining score_diff
  if price < MIN_PRICE / 100 then
    pure (_zero_sizing .skipBelowZone raw_edge survival vol_remaining vel_norm 0)
  else if net_win ≤ 0 then
    pure (_zero_sizing .skipFeeExceedsProfit raw_edge survival vol_remaining
      vel_norm 0)
  else if raw_edge ≤ min_edge then
    pure (_zero_sizing (.skipEdge raw_edge min_edge)
      raw_edge survival vol_remaining vel_norm 0)
  else if period < 4 ∧ ¬ is_effectively_locked score_diff seconds_remaining then
    let minutes_remaining := (seconds_remaining : ℝ) / 60
    let required_lead := minutes_remaining * 0.3
    pure (_zero_sizing (.waitPeriod period required_lead score_diff)
      raw_edge survival vol_remaining vel_norm 0)
  else
    fullEvaluationE fr p_current price net_win raw_edge survival vol_remaining
      vel_norm bankroll min_survival

end

/-! ## Helper lemmas about the rounding functions -/

lemma pyRound_eq (x : ℝ) (n : ℤ) (h1 : (n : ℝ) - 1/2 < x) (h2 : x < (n : ℝ) + 1/2) :
    pyRound x = n := by
  have hfr : Int.fract x ≠ 1/2 := by
    intro h
    have hx : x = (⌊x⌋ : ℝ) + 1/2 := by
      have := Int.floor_add_fract x
      rw [h] at this
      linarith
    have hA : n ≤ ⌊x⌋ := by
      have : (n : ℝ) < (⌊x⌋ : ℝ) + 1 := by linarith
      exact_mod_cast Int.lt_add_one_iff.mp (by exact_mod_cast this)
    have hB : ⌊x⌋ < n := by
      have : (⌊x⌋ : ℝ) < (n : ℝ) := by linarith
      exact_mod_cast this
    omega
  rw [pyRound, if_neg hfr, round_eq]
  rw [Int.floor_eq_iff]
  refine ⟨by linarith, by linarith⟩

lemma floor_add_half_of_tie {x : ℝ} (hx : x = (⌊x⌋ : ℝ) + 1/2) :
    ⌊x + 1/2⌋ = ⌊x⌋ + 1 := by
  rw [Int.floor_eq_iff]
  constructor
  · push_cast
    linarith
  · push_cast
    linarith

lemma pyRound_le_round (x : ℝ) : pyRound x ≤ round x := by
  by_cases h : Int.fract x = 1/2
  · have hx : x = (⌊x⌋ : ℝ) + 1/2 := by
      have := Int.floor_add_fract x
      rw [h] at this
      linarith
    have hfl : round x = ⌊x⌋ + 1 := by
      rw [round_eq]
      exact floor_add_half_of_tie hx
    rw [pyRound, if_pos h, hfl]
    rcases Int.even_or_odd ⌊x⌋ with ⟨m, hm⟩ | ⟨m, hm⟩
    · have : ⌊x / 2 + 1/2⌋ = m := by
        rw [Int.floor_eq_iff]
        constructor
        · rw [hx, hm]; push_cast; linarith
        · rw [hx, hm]; push_cast; linarith
      rw [this]; omega
    · have : ⌊x / 2 + 1/2⌋ = m + 1 := by
        rw [Int.floor_eq_iff]
        constructor
        · rw [hx, hm]; push_cast; linarith
        · rw [hx, hm]; push_cast; linarith
      rw [this]; omega
  · rw [pyRound, if_neg h]

lemma round_le_round_of_le {x y : ℝ} (h : x ≤ y) : round x ≤ round y := by
  rw [round_eq, round_eq]
  exact Int.floor_le_floor (by linarith)

lemma pyRound_mono {x y : ℝ} (h : x ≤ y) : pyRound x ≤ pyRound y := by
  rcases eq_or_lt_of_le h with rfl | hlt
  · exact le_refl _
  by_cases hy : Int.fract y = 1/2
  · have hy' : y = (⌊y⌋ : ℝ) + 1/2 := by
      have := Int.floor_add_fract y
      rw [hy] at this
      linarith
    conv_rhs => rw [pyRound]
    rw [if_pos hy]
    rcases Int.even_or_odd ⌊y⌋ with ⟨m, hm⟩ | ⟨m, hm⟩
    · have hfe : ⌊y / 2 + 1/2⌋ = m := by
        rw [Int.floor_eq_iff]
        constructor
        · rw [hy', hm]; push_cast; linarith
        · rw [hy', hm]; push_cast; linarith
      rw [hfe]
      have h1 : pyRound x ≤ round x := pyRound_le_round x
      have h2 : round x ≤ 2 * m := by
        rw [round_eq]
        have hxb : x + 1/2 < ((2 * m + 1 : ℤ) : ℝ) := by
          rw [hy', hm] at hlt
          push_cast at hlt ⊢
          linarith
        have := Int.floor_lt.mpr hxb
        omega
      omega
    · have hfo : ⌊y / 2 + 1/2⌋ = m + 1 := by
        rw [Int.floor_eq_iff]
        constructor
        · rw [hy', hm]; push_cast; linarith
        · rw [hy', hm]; push_cast; linarith
      rw [hfo]
      have h1 : pyRound x ≤ round x := pyRound_le_round x
      have h2 : round x ≤ 2 * (m + 1) := by
        have hxy : round x ≤ round y := round_le_round_of_le h
        have hr : round y = 2 * m + 2 := by
          rw [round_eq, floor_add_half_of_tie hy', hm]
          ring
        omega
      omega
  · conv_rhs => rw [pyRound]
    rw [if_neg hy]
    calc pyRound x ≤ round x := pyRound_le_round x
      _ ≤ round y := round_le_round_of_le h

lemma roundTo_eq (n : ℕ) (x : ℝ) (m : ℤ)
    (h1 : (m : ℝ) - 1/2 < x * 10 ^ n) (h2 : x * 10 ^ n < (m : ℝ) + 1/2) :
    roundTo n x = (m : ℝ) / 10 ^ n := by
  rw [roundTo, pyRound_eq (x * 10 ^ n) m h1 h2]

lemma roundTo_mono (n : ℕ) {x y : ℝ} (h : x ≤ y) : roundTo n x ≤ roundTo n y := by
  rw [roundTo, roundTo]
  have hc : pyRound (x * 10 ^ n) ≤ pyRound (y * 10 ^ n) :=
    pyRound_mono (mul_le_mul_of_nonneg_right h (by positivity))
  gcongr


lemma roundTo_zero (n : ℕ) : roundTo n 0 = 0 := by
  rw [roundTo_eq n 0 0 (by norm_num) (by norm_num)]
  norm_num

lemma roundTo_one (n : ℕ) : roundTo n 1 = 1 := by
  rw [roundTo, show (1 : ℝ) * 10 ^ n = ((10 ^ n : ℤ) : ℝ) by push_cast; ring,
    pyRound_eq _ (10 ^ n) (by push_cast; norm_num) (by push_cast; norm_num)]
  rw [div_eq_one_iff_eq (by positivity)]
  push_cast
  ring

lemma roundTo_nonneg (n : ℕ) {x : ℝ} (h : 0 ≤ x) : 0 ≤ roundTo n x := by
  have := roundTo_mono n h
  rwa [roundTo_zero] at this

lemma ceilCent_mono {x y : ℝ} (h : x ≤ y) : ceilCent x ≤ ceilCent y := by
  rw [ceilCent, ceilCent]
  have hc : (⌈x * 100⌉ : ℝ) ≤ (⌈y * 100⌉ : ℝ) := by
    exact_mod_cast Int.ceil_le_ceil (by linarith)
  linarith

lemma ceilCent_eq (x : ℝ) (z : ℤ) (h1 : (z : ℝ) - 1 < x * 100) (h2 : x * 100 ≤ (z : ℝ)) :
    ceilCent x = (z : ℝ) / 100 := by
  have hz : (⌈x * 100⌉ : ℤ) = z := Int.ceil_eq_iff.mpr ⟨h1, h2⟩
  rw [ceilCent, hz]

/-! ## Fee model lemmas -/

/-- Unfolding `kalshi_fee` when the price is already a decimal (not `> 1`). -/
lemma kalshi_fee_of_not_cents (n : ℤ) (maker : Bool) {x : ℝ} (hx : ¬ 1 < x) :
    kalshi_fee n x maker =
      ceilCent ((if maker then _MAKER_RATE else _TAKER_RATE) * (n : ℝ) * x * (1 - x)) := by
  simp only [kalshi_fee, normPrice, if_neg hx]

/-- Unfolding `kalshi_fee` when the price is in cents (`> 1`). -/
lemma kalshi_fee_of_cents (n : ℤ) (maker : Bool) {x : ℝ} (hx : 1 < x) :
    kalshi_fee n x maker =
      ceilCent ((if maker then _MAKER_RATE else _TAKER_RATE) * (n : ℝ) *
        (x / 100) * (1 - x / 100)) := by
  simp only [kalshi_fee, normPrice, if_pos hx]

lemma rate_nonneg (maker : Bool) : 0 ≤ (if maker then _MAKER_RATE else _TAKER_RATE) := by
  cases maker <;> norm_num [_MAKER_RATE, _TAKER_RATE]

/-- C4 (counterexample): the claim fails at the integer cents price `c = 1`
with `n = 1` contract at the taker rate.  `kalshi_fee(1, 1)` treats the
price `1` as the decimal `1.0` (the `> 1` cents heuristic does not fire),
so the fee is `ceil(0.07 * 1 * 1 * 0) = 0`, while `kalshi_fee(1, 0.01)`
gives `ceil_to_cent(0.07 * 0.01 * 0.99) = 0.01`. -/
theorem C4_counterexample :
    kalshi_fee 1 (1 : ℝ) false ≠ kalshi_fee 1 ((1 : ℝ) / 100) false := by
  rw [kalshi_fee_of_not_cents 1 false (by norm_num),
      kalshi_fee_of_not_cents 1 false (by norm_num)]
  norm_num [ceilCent, _TAKER_RATE]
  rw [show (⌈(693 / 10000 : ℝ)⌉ : ℤ) = 1 from Int.ceil_eq_iff.mpr (by norm_num)]
  norm_num

/-- C4 (amended): for every integer cents price `c` in `2–99` (the price `1`
is caught by the `> 1` decimal-vs-cents heuristic and treated as a decimal,
see `C4_counterexample`) and every non-negative contract count, the fee
computed from cents equals the fee computed from the equivalent decimal,
for both maker and taker rates. -/
theorem C4_amended (c : ℕ) (hc2 : 2 ≤ c) (hc99 : c ≤ 99) (n : ℤ) (hn : 0 ≤ n)
    (maker : Bool) :
    kalshi_fee n (c : ℝ) maker = kalshi_fee n ((c : ℝ) / 100) maker := by
  have h1 : (1 : ℝ) < (c : ℝ) := by exact_mod_cast hc2.trans_lt' (by norm_num)
  have h2 : ¬ (1 : ℝ) < (c : ℝ) / 100 := by
    rw [not_lt]
    have : (c : ℝ) ≤ 99 := by exact_mod_cast hc99
    linarith
  rw [kalshi_fee_of_cents n maker h1, kalshi_fee_of_not_cents n maker h2]

/-- Witness for `C4_amended` at `c = 82`, `n = 3`, maker. -/
theorem C4_amended_witness :
    kalshi_fee 3 (82 : ℝ) true = kalshi_fee 3 ((82 : ℝ) / 100) true := by
  have h := C4_amended 82 (by norm_num) (by norm_num) 3 (by norm_num) true
  norm_num at h ⊢
  exact h

/-- C5: for every decimal price `P ∈ (0,1)`, non-negative contract count and
liquidity role, the fee is symmetric around `0.5` (`fee(P) = fee(1-P)`),
monotonically non-decreasing on `(0, 1/2]`, non-increasing on `[1/2, 1)`,
and maximal at `P = 1/2`.  (With the upward cent-rounding the fee plateaus,
so the monotonicity and the maximum hold in the non-strict sense; at
`contracts = 0` the fee is identically `0`.) -/
theorem C5_fee_symmetric_unimodal (n : ℤ) (hn : 0 ≤ n) (maker : Bool) (P Q : ℝ)
    (hP0 : 0 < P) (hP1 : P < 1) (hQ0 : 0 < Q) (hQ1 : Q < 1) :
    kalshi_fee n P maker = kalshi_fee n (1 - P) maker ∧
    (P ≤ Q → Q ≤ 1/2 → kalshi_fee n P maker ≤ kalshi_fee n Q maker) ∧
    (1/2 ≤ P → P ≤ Q → kalshi_fee n Q maker ≤ kalshi_fee n P maker) ∧
    kalshi_fee n P maker ≤ kalshi_fee n (1/2 : ℝ) maker := by
  have hrn : 0 ≤ (if maker then _MAKER_RATE else _TAKER_RATE) * (n : ℝ) :=
    mul_nonneg (rate_nonneg maker) (by exact_mod_cast hn)
  have hfee : ∀ x : ℝ, x < 1 → kalshi_fee n x maker =
      ceilCent ((if maker then _MAKER_RATE else _TAKER_RATE) * (n : ℝ) * x * (1 - x)) :=
    fun x hx => kalshi_fee_of_not_cents n maker (by linarith)
  refine ⟨?_, ?_, ?_, ?_⟩
  · rw [hfee P hP1, hfee (1 - P) (by linarith)]
    exact congrArg ceilCent (by ring)
  · intro h1 h2
    rw [hfee P hP1, hfee Q hQ1]
    apply ceilCent_mono
    have key : 0 ≤ ((if maker then _MAKER_RATE else _TAKER_RATE) * (n : ℝ)) *
        ((Q - P) * (1 - P - Q)) :=
      mul_nonneg hrn (mul_nonneg (by linarith) (by linarith))
    nlinarith [key]
  · intro h1 h2
    rw [hfee P hP1, hfee Q hQ1]
    apply ceilCent_mono
    have key : 0 ≤ ((if maker then _MAKER_RATE else _TAKER_RATE) * (n : ℝ)) *
        ((Q - P) * (P + Q - 1)) :=
      mul_nonneg hrn (mul_nonneg (by linarith) (by linarith))
    nlinarith [key]
  · rw [hfee P hP1, hfee (1/2) (by norm_num)]
    apply ceilCent_mono
    have key : 0 ≤ ((if maker then _MAKER_RATE else _TAKER_RATE) * (n : ℝ)) *
        (P - 1/2) ^ 2 := mul_nonneg hrn (sq_nonneg _)
    nlinarith [key]

/-- Witness for `C5_fee_symmetric_unimodal` at `n = 1`, taker, `P = 0.3`,
`Q = 0.4`. -/
theorem C5_witness :
    kalshi_fee 1 (0.3 : ℝ) false = kalshi_fee 1 (1 - (0.3 : ℝ)) false ∧
    ((0.3 : ℝ) ≤ 0.4 → (0.4 : ℝ) ≤ 1/2 →
      kalshi_fee 1 (0.3 : ℝ) false ≤ kalshi_fee 1 (0.4 : ℝ) false) ∧
    ((1/2 : ℝ) ≤ 0.3 → (0.3 : ℝ) ≤ 0.4 →
      kalshi_fee 1 (0.4 : ℝ) false ≤ kalshi_fee 1 (0.3 : ℝ) false) ∧
    kalshi_fee 1 (0.3 : ℝ) false ≤ kalshi_fee 1 (1/2 : ℝ) false :=
  C5_fee_symmetric_unimodal 1 (by norm_num) false 0.3 0.4
    (by norm_num) (by norm_num) (by norm_num) (by norm_num)

/-! ## Survival model lemmas -/

lemma wp_survival_nonneg (Φ : ℝ → ℝ) (p pf : ℝ) (s sd : ℤ) :
    0 ≤ wp_survival_probability Φ p pf s sd := by
  simp only [wp_survival_probability]
  split_ifs <;> norm_num

lemma wp_survival_le_one (Φ : ℝ → ℝ) (p pf : ℝ) (s sd : ℤ) :
    wp_survival_probability Φ p pf s sd ≤ 1 := by
  simp only [wp_survival_probability]
  split_ifs <;> norm_num

/-- C6: with `seconds_remaining ≤ 0` the survival probability is exactly `1`
iff `p_current ≥ p_floor` and exactly `0` otherwise; the same binary rule
applies when the computed volatility is below `1e-6`; and for all inputs
the returned value lies in `[0, 1]`. -/
theorem C6_survival_edge_cases (Φ : ℝ → ℝ) (p pf : ℝ) (s sd : ℤ) :
    (s ≤ 0 → wp_survival_probability Φ p pf s sd = if pf ≤ p then 1 else 0) ∧
    (0 < s →
      0.28 * Real.sqrt ((s : ℝ) / 2880) * Real.sqrt (max 0 (p * (1 - p) * 4)) < 1e-6 →
      wp_survival_probability Φ p pf s sd = if pf ≤ p then 1 else 0) ∧
    0 ≤ wp_survival_probability Φ p pf s sd ∧
    wp_survival_probability Φ p pf s sd ≤ 1 := by
  refine ⟨?_, ?_, wp_survival_nonneg Φ p pf s sd, wp_survival_le_one Φ p pf s sd⟩
  · intro h
    simp only [wp_survival_probability]
    rw [if_pos h]
  · intro hs hv
    simp only [wp_survival_probability]
    rw [if_neg (by omega), if_pos hv]

/-- Witness for `C6_survival_edge_cases` at `s = 0`, `p = 0.9 ≥ p_floor = 0.8`. -/
theorem C6_witness :
    wp_survival_probability (fun _ => 1/2) 0.9 0.8 0 5 = 1 := by
  have h := (C6_survival_edge_cases (fun _ => 1/2) 0.9 0.8 0 5).1 (le_refl 0)
  rw [h, if_pos (by norm_num)]

/-! ## Kelly sizer lemmas -/

/-- Elementary bound used to discharge the Step-3 drawdown check on concrete
inputs: `exp a * (1 - exp b) ≤ 0.05` whenever `a ≤ -19`, via
`exp a ≤ 1/(1 - a) ≤ 1/20`. -/
lemma exp_prod_le (a b : ℝ) (ha : a ≤ -19) :
    Real.exp a * (1 - Real.exp b) ≤ 0.05 := by
  have h2 := Real.add_one_le_exp (-a)
  have h3 : (20 : ℝ) ≤ Real.exp (-a) := by linarith
  have h4 : Real.exp a = (Real.exp (-a))⁻¹ := by rw [← Real.exp_neg, neg_neg]
  have h5 : Real.exp a ≤ 1/20 := by
    rw [h4]
    have := one_div_le_one_div_of_le (by norm_num : (0:ℝ) < 20) h3
    simpa using this
  nlinarith [Real.exp_pos a, Real.exp_pos b, h5]

/-- On the concrete input `p = 0.999`, `b = 0.1`, `f = f_star = 0.989`,
the exponential drawdown bound is below `α = 0.05`, so Step 3 of
`max_kelly_for_drawdown_constraint` accepts full Kelly. -/
lemma dd_example_le : _drawdown_prob 0.999 0.1 0.989 0.25 250 ≤ 0.05 := by
  simp only [_drawdown_prob, _log_return_moments]
  rw [if_neg (by norm_num)]
  exact exp_prod_le _ _ (by norm_num)

/-- The concrete Kelly evaluation used by several witnesses below:
valid via the "full Kelly satisfies constraint" branch, with
`f_max = round(f_star, 4) = 0.989`, independent of the root-finding oracle. -/
lemma kelly_example (fr : FindRoot) :
    (max_kelly_for_drawdown_constraint fr 0.999 0.1 0.25 0.95 250).valid = true ∧
    (max_kelly_for_drawdown_constraint fr 0.999 0.1 0.25 0.95 250).f_max = 0.989 := by
  have hfs : ((0.1 : ℝ) * 0.999 - (1 - 0.999)) / 0.1 = 0.989 := by norm_num
  have hdd : _drawdown_prob 0.999 0.1 (((0.1 : ℝ) * 0.999 - (1 - 0.999)) / 0.1)
      0.25 250 ≤ 1 - 0.95 := by
    rw [hfs]
    linarith [dd_example_le]
  simp only [max_kelly_for_drawdown_constraint]
  rw [if_neg (by norm_num : ¬ ((0.1 : ℝ) * 0.999 - (1 - 0.999)) / 0.1 ≤ 0),
    if_pos hdd]
  refine ⟨rfl, ?_⟩
  show roundTo 4 (((0.1 : ℝ) * 0.999 - (1 - 0.999)) / 0.1) = 0.989
  rw [hfs, roundTo_eq 4 0.989 9890 (by norm_num) (by norm_num)]
  norm_num

/-- For a root-finder satisfying its bracket contract, every `KellyResult`
(valid or not) has a non-negative `f_max`. -/
lemma kelly_fmax_nonneg (fr : FindRoot) (hfr : BrentqSpec fr)
    (p b D confidence : ℝ) (n : ℤ) :
    0 ≤ (max_kelly_for_drawdown_constraint fr p b D confidence n).f_max := by
  simp only [max_kelly_for_drawdown_constraint]
  split_ifs with hfs hdd
  · norm_num
  · exact roundTo_nonneg 4 (le_of_lt (lt_of_not_le hfs))
  · rcases hroot : fr (fun f => _drawdown_prob p b f D n - (1 - confidence)) 1e-6
        ((b * p - (1 - p)) / b) with _ | r
    · exact le_refl (0 : ℝ)
    · obtain ⟨hr1, _⟩ := hfr _ _ _ _ hroot
      exact roundTo_nonneg 4 (by linarith)

/-- C3: for every result of `max_kelly_for_drawdown_constraint` with
`valid = true` (under the brentq bracket contract), the returned fields
satisfy `0 ≤ f_max ≤ f_star` and `0 ≤ kelly_multiplier ≤ 1`, the
4-decimal rounding included. -/
theorem C3_kelly_bounds (fr : FindRoot) (hfr : BrentqSpec fr)
    (p b D confidence : ℝ) (n : ℤ)
    (hv : (max_kelly_for_drawdown_constraint fr p b D confidence n).valid = true) :
    0 ≤ (max_kelly_for_drawdown_constraint fr p b D confidence n).f_max ∧
    (max_kelly_for_drawdown_constraint fr p b D confidence n).f_max ≤
      (max_kelly_for_drawdown_constraint fr p b D confidence n).f_star ∧
    0 ≤ (max_kelly_for_drawdown_constraint fr p b D confidence n).kelly_multiplier ∧
    (max_kelly_for_drawdown_constraint fr p b D confidence n).kelly_multiplier ≤ 1 := by
  simp only [max_kelly_for_drawdown_constraint] at hv ⊢
  split_ifs at hv ⊢ with hfs hdd
  · have h0 : 0 < (b * p - (1 - p)) / b := lt_of_not_le hfs
    exact ⟨roundTo_nonneg 4 h0.le, le_refl _, by norm_num, by norm_num⟩
  · rcases hroot : fr (fun f => _drawdown_prob p b f D n - (1 - confidence)) 1e-6
        ((b * p - (1 - p)) / b) with _ | r
    · rw [hroot] at hv
      simp at hv
    · obtain ⟨hr1, hr2⟩ := hfr _ _ _ _ hroot
      have h0 : 0 < (b * p - (1 - p)) / b := lt_of_not_le hfs
      have hr0 : (0 : ℝ) ≤ r := by linarith
      refine ⟨roundTo_nonneg 4 hr0, roundTo_mono 4 hr2, roundTo_nonneg 4 ?_, ?_⟩
      · exact div_nonneg hr0 h0.le
      · have : r / ((b * p - (1 - p)) / b) ≤ 1 := (div_le_one h0).mpr hr2
        calc roundTo 4 (r / ((b * p - (1 - p)) / b)) ≤ roundTo 4 1 := roundTo_mono 4 this
          _ = 1 := roundTo_one 4

/-- Witness for `C3_kelly_bounds`: the trivial (never-returning) root-finder
satisfies the brentq contract, and the concrete input of `kelly_example`
yields a valid result through the full-Kelly branch. -/
theorem C3_witness :
    0 ≤ (max_kelly_for_drawdown_constraint (fun _ _ _ => none) 0.999 0.1 0.25 0.95 250).f_max ∧
    (max_kelly_for_drawdown_constraint (fun _ _ _ => none) 0.999 0.1 0.25 0.95 250).f_max ≤
      (max_kelly_for_drawdown_constraint (fun _ _ _ => none) 0.999 0.1 0.25 0.95 250).f_star ∧
    0 ≤ (max_kelly_for_drawdown_constraint (fun _ _ _ => none) 0.999 0.1 0.25 0.95 250).kelly_multiplier ∧
    (max_kelly_for_drawdown_constraint (fun _ _ _ => none) 0.999 0.1 0.25 0.95 250).kelly_multiplier ≤ 1 :=
  C3_kelly_bounds (fun _ _ _ => none) (fun _ _ _ _ h => by cases h)
    0.999 0.1 0.25 0.95 250 (kelly_example (fun _ _ _ => none)).1

/-! ## Gate chain and decision assembler -/

/-- C10: every record returned by `entry_quality` — gate-blocked SKIP/WAIT
decisions included — has `valid = true`; the `valid` field never
distinguishes a tradeable decision from a vetoed one. -/
theorem C10_always_valid (Φ : ℝ → ℝ) (fr : FindRoot) (p ask : ℝ) (s sd per : ℤ)
    (bank : ℝ) (maker : Bool) (me ms : ℝ) :
    (entry_quality Φ fr p ask s sd per bank maker me ms).valid = true := by
  simp only [entry_quality]
  by_cases h1 : normPrice ask < MIN_PRICE / 100
  · rw [if_pos h1]; rfl
  rw [if_neg h1]
  by_cases h2 : 1 - normPrice ask - kalshi_fee 1 ask maker ≤ 0
  · rw [if_pos h2]; rfl
  rw [if_neg h2]
  by_cases h3 : p - normPrice ask ≤ me
  · rw [if_pos h3]; rfl
  rw [if_neg h3]
  by_cases h4 : per < 4 ∧ ¬ (is_effectively_locked sd s = true)
  · rw [if_pos h4]; rfl
  rw [if_neg h4]
  rfl

/-- C2: whenever the normalized price is below `MIN_PRICE/100`, the result is
the "below target zone" block with zero sizing, regardless of every other
input (in particular of how large `raw_edge` or `survival` would be). -/
theorem C2_price_floor_gate (Φ : ℝ → ℝ) (fr : FindRoot) (p ask : ℝ) (s sd per : ℤ)
    (bank : ℝ) (maker : Bool) (me ms : ℝ)
    (h : normPrice ask < MIN_PRICE / 100) :
    (entry_quality Φ fr p ask s sd per bank maker me ms).recommendation =
      .skipBelowZone ∧
    (entry_quality Φ fr p ask s sd per bank maker me ms).contracts = 0 ∧
    (entry_quality Φ fr p ask s sd per bank maker me ms).dollars = 0 ∧
    (entry_quality Φ fr p ask s sd per bank maker me ms).ev = 0 ∧
    (entry_quality Φ fr p ask s sd per bank maker me ms).f_max = 0 ∧
    (entry_quality Φ fr p ask s sd per bank maker me ms).f_star = 0 ∧
    (entry_quality Φ fr p ask s sd per bank maker me ms).kelly_multiplier = 0 ∧
    (entry_quality Φ fr p ask s sd per bank maker me ms).score = 0 := by
  simp only [entry_quality]
  rw [if_pos h]
  simp [_zero_sizing]

/-- Witness for `C2_price_floor_gate`: the spec scenario `p_current = 0.85`,
`price = 0.20` (`raw_edge = 0.65`) is still blocked by the price floor. -/
theorem C2_witness :
    (entry_quality (fun _ => 1/2) (fun _ _ _ => none) 0.85 0.20 300 10 4
      BANKROLL USE_MAKER MIN_EDGE MIN_SURVIVAL).recommendation =
      .skipBelowZone ∧
    (entry_quality (fun _ => 1/2) (fun _ _ _ => none) 0.85 0.20 300 10 4
      BANKROLL USE_MAKER MIN_EDGE MIN_SURVIVAL).contracts = 0 := by
  have h := C2_price_floor_gate (fun _ => 1/2) (fun _ _ _ => none) 0.85 0.20 300 10 4
    BANKROLL USE_MAKER MIN_EDGE MIN_SURVIVAL
    (by norm_num [normPrice, MIN_PRICE])
  exact ⟨h.1, h.2.1⟩

/-- C7: with `period < 4`, time still on the clock, the price-floor, fee and
edge gates passing, and `score_diff` below `(seconds_remaining/60) * 0.3`,
the result is the WAIT block naming the period, the required lead and the
current lead, with zero sizing. -/
theorem C7_period_gate (Φ : ℝ → ℝ) (fr : FindRoot) (p ask : ℝ) (s sd per : ℤ)
    (bank : ℝ) (maker : Bool) (me ms : ℝ)
    (hper : per < 4) (hs : 0 < s)
    (h1 : ¬ normPrice ask < MIN_PRICE / 100)
    (h2 : ¬ (1 - normPrice ask) - kalshi_fee 1 ask maker ≤ 0)
    (h3 : ¬ p - normPrice ask ≤ me)
    (hlock : (sd : ℝ) < (s : ℝ) / 60 * 0.3) :
    (entry_quality Φ fr p ask s sd per bank maker me ms).recommendation =
      .waitPeriod per ((s : ℝ) / 60 * 0.3) sd ∧
    (entry_quality Φ fr p ask s sd per bank maker me ms).contracts = 0 ∧
    (entry_quality Φ fr p ask s sd per bank maker me ms).dollars = 0 ∧
    (entry_quality Φ fr p ask s sd per bank maker me ms).ev = 0 := by
  have hlocked : is_effectively_locked sd s = false := by
    simp only [is_effectively_locked]
    rw [if_neg (by omega)]
    simp only [decide_eq_false_iff_not, not_le]
    exact hlock
  simp only [entry_quality]
  rw [if_neg h1, if_neg h2, if_neg h3,
    if_pos (show per < 4 ∧ ¬ (is_effectively_locked sd s = true) from
      ⟨hper, by simp [hlocked]⟩)]
  simp [_zero_sizing]

/-- Witness for `C7_period_gate`: the spec scenario `p_current = 0.88`,
`price = 0.78`, `seconds_remaining = 1800`, `score_diff = 5`, `period = 2`
yields the WAIT block for Q2 with required lead `9`. -/
theorem C7_witness :
    (entry_quality (fun _ => 1/2) (fun _ _ _ => none) 0.88 0.78 1800 5 2
      BANKROLL USE_MAKER MIN_EDGE MIN_SURVIVAL).recommendation =
      .waitPeriod 2 9 5 ∧
    (entry_quality (fun _ => 1/2) (fun _ _ _ => none) 0.88 0.78 1800 5 2
      BANKROLL USE_MAKER MIN_EDGE MIN_SURVIVAL).contracts = 0 := by
  have hfee : kalshi_fee 1 (0.78 : ℝ) true = 0.01 := by
    rw [kalshi_fee_of_not_cents 1 true (by norm_num)]
    rw [ceilCent_eq _ 1 (by norm_num [_MAKER_RATE]) (by norm_num [_MAKER_RATE])]
    norm_num
  have h := C7_period_gate (fun _ => 1/2) (fun _ _ _ => none) 0.88 0.78 1800 5 2
    BANKROLL USE_MAKER MIN_EDGE MIN_SURVIVAL
    (by norm_num) (by norm_num)
    (by norm_num [normPrice, MIN_PRICE])
    (by rw [USE_MAKER, hfee]; norm_num [normPrice])
    (by norm_num [normPrice, MIN_EDGE])
    (by push_cast; norm_num)
  obtain ⟨ha, hb, -, -⟩ := h
  rw [show (((1800 : ℤ) : ℝ) / 60 * 0.3) = 9 by push_cast; norm_num] at ha
  exact ⟨ha, hb⟩

/-- When all four gates pass, `entry_quality` is `fullEvaluation` applied to
the values computed up front. -/
lemma entry_quality_full_eval (Φ : ℝ → ℝ) (fr : FindRoot) (p ask : ℝ)
    (s sd per : ℤ) (bank : ℝ) (maker : Bool) (me ms : ℝ)
    (h1 : ¬ normPrice ask < MIN_PRICE / 100)
    (h2 : ¬ 1 - normPrice ask - kalshi_fee 1 ask maker ≤ 0)
    (h3 : ¬ p - normPrice ask ≤ me)
    (h4 : ¬ (per < 4 ∧ ¬ (is_effectively_locked sd s = true))) :
    entry_quality Φ fr p ask s sd per bank maker me ms =
      fullEvaluation fr p (normPrice ask)
        (1 - normPrice ask - kalshi_fee 1 ask maker) (p - normPrice ask)
        (wp_survival_probability Φ p (normPrice ask + 0.02) s sd)
        (wp_volatility_remaining p s)
        (min 1 (3600 / ((max s 60 : ℤ) : ℝ))) bank ms := by
  simp only [entry_quality]
  rw [if_neg h1, if_neg h2, if_neg h3, if_neg h4]

/-- The full-evaluation outcome for the C9 scenario, with the survival value
kept abstract (only its `[0,1]` clamp is used): `raw_edge` is reported as
`0.1`, the composite score is at least `40`, and the recommendation can
never be any of the SKIP labels. -/
lemma C9_core (fr : FindRoot) (hfr : BrentqSpec fr) (S Vr bank : ℝ)
    (hS0 : 0 ≤ S) (hS1 : S ≤ 1) :
    (fullEvaluation fr 0.92 0.82 0.17 0.1 S Vr 1 bank MIN_SURVIVAL).raw_edge = 0.1 ∧
    0 < (fullEvaluation fr 0.92 0.82 0.17 0.1 S Vr 1 bank MIN_SURVIVAL).score ∧
    (fullEvaluation fr 0.92 0.82 0.17 0.1 S Vr 1 bank
      MIN_SURVIVAL).recommendation.mentionsSkip = false := by
  have hcond : (0 : ℝ) < 0.17 ∧ (0 : ℝ) < 0.1 := by norm_num
  simp only [fullEvaluation, MIN_SURVIVAL]
  rw [if_pos hcond]
  set K := max_kelly_for_drawdown_constraint fr 0.92 (0.17 / 0.82) 0.25 0.95 250
    with hKdef
  rw [show (0.1 : ℝ) / 0.15 = 2/3 by norm_num]
  rw [max_eq_right (show (0 : ℝ) ≤ 2/3 by norm_num),
      min_eq_right (show (2/3 : ℝ) ≤ 1 by norm_num)]
  have hK0 : 0 ≤ K.f_max := by
    rw [hKdef]
    exact kelly_fmax_nonneg fr hfr _ _ _ _ _
  have hks0 : 0 ≤ (if K.valid = true then min 1 (K.f_max / 0.10) else 0) := by
    split_ifs with h
    · exact le_min (by norm_num) (div_nonneg hK0 (by norm_num))
    · norm_num
  set ks := (if K.valid = true then min 1 (K.f_max / 0.10) else 0) with hksdef
  set ss := max 0 ((S - 0.70) / (1 - 0.70)) with hssdef
  have hSS0 : 0 ≤ ss := le_max_left _ _
  set sc := roundTo 1 ((0.30 * (2/3) + 0.40 * ss + 0.20 * 1 + 0.10 * ks) * 100)
    with hscdef
  have hsc40 : 40 ≤ sc := by
    calc (40 : ℝ) = roundTo 1 40 := by
          rw [roundTo_eq 1 40 400 (by norm_num) (by norm_num)]
          norm_num
      _ ≤ roundTo 1 ((0.30 * (2/3) + 0.40 * ss + 0.20 * 1 + 0.10 * ks) * 100) :=
          roundTo_mono 1 (by nlinarith [hSS0, hks0])
      _ = sc := hscdef.symm
  refine ⟨?_, ?_, ?_⟩
  · show roundTo 4 (0.1 : ℝ) = 0.1
    rw [roundTo_eq 4 0.1 1000 (by norm_num) (by norm_num)]
    norm_num
  · show (0 : ℝ) < sc
    linarith
  · show (if 70 ≤ sc ∧ (0.70 : ℝ) ≤ S then Recommendation.strongEntry
      else if 50 ≤ sc ∧ (0.70 : ℝ) ≤ S then .enter
      else if S < 0.70 then .waitSurvival S 0.70
      else if 30 ≤ sc then .marginal else .skip).mentionsSkip = false
    split_ifs with c1 c2 c3 c4
    · rfl
    · rfl
    · rfl
    · rfl
    · exact absurd (by linarith : (30 : ℝ) ≤ sc) c4

/-- C9: on the concrete input `p_current = 0.92`, `price = 82` cents,
`seconds_remaining = 120`, `score_diff = 8`, `period = 4` with the default
config, `entry_quality` reports `raw_edge = 0.10`, a strictly positive
composite score, and a recommendation that is not a SKIP of any kind
(in particular not a hard SKIP). -/
theorem C9_strong_q4_scenario (Φ : ℝ → ℝ) (fr : FindRoot) (hfr : BrentqSpec fr) :
    (entry_quality Φ fr 0.92 82 120 8 4 BANKROLL USE_MAKER MIN_EDGE
      MIN_SURVIVAL).raw_edge = 0.1 ∧
    0 < (entry_quality Φ fr 0.92 82 120 8 4 BANKROLL USE_MAKER MIN_EDGE
      MIN_SURVIVAL).score ∧
    (entry_quality Φ fr 0.92 82 120 8 4 BANKROLL USE_MAKER MIN_EDGE
      MIN_SURVIVAL).recommendation.mentionsSkip = false := by
  have hprice : normPrice 82 = 0.82 := by norm_num [normPrice]
  have hfee : kalshi_fee 1 (82 : ℝ) USE_MAKER = 0.01 := by
    rw [show USE_MAKER = true from rfl]
    rw [kalshi_fee_of_cents 1 true (by norm_num)]
    rw [ceilCent_eq _ 1 (by norm_num [_MAKER_RATE]) (by norm_num [_MAKER_RATE])]
    norm_num
  have heq := entry_quality_full_eval Φ fr 0.92 82 120 8 4 BANKROLL USE_MAKER
    MIN_EDGE MIN_SURVIVAL
    (by rw [hprice]; norm_num [MIN_PRICE])
    (by rw [hprice, hfee]; norm_num)
    (by rw [hprice]; norm_num [MIN_EDGE])
    (by rintro ⟨hc, -⟩; norm_num at hc)
  rw [heq, hprice, hfee]
  rw [show (1 : ℝ) - 0.82 - 0.01 = 0.17 by norm_num]
  rw [show (0.92 : ℝ) - 0.82 = 0.1 by norm_num]
  rw [show (min (1 : ℝ) (3600 / ((max (120 : ℤ) 60 : ℤ) : ℝ))) = 1 by norm_num]
  exact C9_core fr hfr _ _ _
    (wp_survival_nonneg Φ 0.92 (0.82 + 0.02) 120 8)
    (wp_survival_le_one Φ 0.92 (0.82 + 0.02) 120 8)

/-- Witness for `C9_strong_q4_scenario`: a concrete CDF stand-in and the
never-returning root-finder (which satisfies the bracket contract). -/
theorem C9_witness :
    (entry_quality (fun _ => 1/2) (fun _ _ _ => none) 0.92 82 120 8 4 BANKROLL
      USE_MAKER MIN_EDGE MIN_SURVIVAL).raw_edge = 0.1 ∧
    0 < (entry_quality (fun _ => 1/2) (fun _ _ _ => none) 0.92 82 120 8 4 BANKROLL
      USE_MAKER MIN_EDGE MIN_SURVIVAL).score ∧
    (entry_quality (fun _ => 1/2) (fun _ _ _ => none) 0.92 82 120 8 4 BANKROLL
      USE_MAKER MIN_EDGE MIN_SURVIVAL).recommendation.mentionsSkip = false :=
  C9_strong_q4_scenario (fun _ => 1/2) (fun _ _ _ => none)
    (fun _ _ _ _ h => by cases h)

/-- Under the standard-normal CDF facts of `NormCdfSpec`, the clamped
reflected-Brownian survival expression is below `0.70` whenever the
standardized distance satisfies `0 ≤ z ≤ 0.6`: with `E = exp(-2 z²)`,
`Φ(z) - E·Φ(-z) = Φ(z)(1+E) - E ≤ (1/2 + 0.4 z)(1+E) - E
≤ 0.8 z + z² - 0.8 z³ < 0.7` (using `1 - 2z² ≤ E ≤ 1`). -/
lemma survival_upper (Φ : ℝ → ℝ) (hΦ : NormCdfSpec Φ) (z : ℝ)
    (hz0 : 0 ≤ z) (hz : z ≤ 0.6) :
    max 0 (min 1 (Φ z - Real.exp (-2 * z ^ 2) * Φ (-z))) < 0.70 := by
  obtain ⟨hsym, -, hlin⟩ := hΦ
  have hΦz := hlin z hz0
  have hE1 : Real.exp (-2 * z ^ 2) ≤ 1 :=
    Real.exp_le_one_iff.mpr (by nlinarith [sq_nonneg z])
  have hE2 : 1 - 2 * z ^ 2 ≤ Real.exp (-2 * z ^ 2) := by
    have h := Real.add_one_le_exp (-2 * z ^ 2)
    linarith
  have hEpos : 0 < Real.exp (-2 * z ^ 2) := Real.exp_pos _
  have hinner : Φ z - Real.exp (-2 * z ^ 2) * Φ (-z) < 0.70 := by
    rw [hsym z]
    nlinarith [mul_nonneg (show (0 : ℝ) ≤ 1 + Real.exp (-2 * z ^ 2) by linarith)
        (show (0 : ℝ) ≤ 1/2 + 0.4 * z - Φ z by linarith),
      mul_nonneg (show (0 : ℝ) ≤ Real.exp (-2 * z ^ 2) - (1 - 2 * z ^ 2) by linarith)
        (show (0 : ℝ) ≤ 1/2 - 0.4 * z by linarith),
      mul_nonneg (show (0 : ℝ) ≤ 0.6 - z by linarith) hz0,
      mul_nonneg (mul_nonneg (show (0 : ℝ) ≤ 0.6 - z by linarith) hz0) hz0,
      sq_nonneg (0.6 - z), sq_nonneg z]
  exact max_lt (by norm_num) (lt_of_le_of_lt (min_le_right _ _) hinner)

/-- The full-evaluation outcome for the C1 failing input: any survival value
below the `0.70` minimum yields the "WAIT — survival" recommendation (the
first two label conditions fail on their survival conjunct, so the
composite score never matters), while the Kelly sizing — valid through the
full-Kelly branch with `f_max = 0.989` — buys `22` contracts of the
`$20`-capped trade. -/
lemma C1_core (fr : FindRoot) (S Vr vn : ℝ) (hS : S < 0.70) :
    ((fullEvaluation fr 0.999 0.9 0.09 0.099 S Vr vn BANKROLL
      MIN_SURVIVAL).recommendation).mentionsWait = true ∧
    (fullEvaluation fr 0.999 0.9 0.09 0.099 S Vr vn BANKROLL
      MIN_SURVIVAL).contracts = 22 := by
  simp only [fullEvaluation, MIN_SURVIVAL, BANKROLL, MAX_TRADE]
  rw [if_pos (show (0 : ℝ) < 0.09 ∧ (0 : ℝ) < 0.099 by norm_num)]
  rw [show (0.09 : ℝ) / 0.9 = 0.1 by norm_num]
  obtain ⟨hKv, hKf⟩ := kelly_example fr
  rw [hKv, hKf]
  -- position sizing: dollars = round(min(288 * 0.989, 20), 2) = 20,
  -- contracts = max 0 ⌊20 / 0.9⌋ = 22
  rw [show min ((288.0 : ℝ) * 0.989) 20.0 = 20 from
    (min_eq_right (by norm_num)).trans (by norm_num)]
  rw [roundTo_eq 2 20 2000 (by norm_num) (by norm_num)]
  rw [show ((2000 : ℤ) : ℝ) / 10 ^ 2 = 20 by push_cast; norm_num]
  rw [show (⌊(20 : ℝ) / 0.9⌋ : ℤ) = 22 from Int.floor_eq_iff.mpr (by norm_num)]
  rw [show max (0 : ℤ) 22 = 22 from max_eq_right (by norm_num)]
  rw [if_pos (show (true = true) ∧ (0 : ℝ) < 0.989 from ⟨rfl, by norm_num⟩)]
  -- recommendation: survival < 0.70 refutes the STRONG/ENTER conjunctions
  -- and selects the WAIT — survival label
  rw [if_neg (fun h => absurd h.2 (not_le.mpr hS)),
      if_neg (fun h => absurd h.2 (not_le.mpr hS)),
      if_pos hS]
  exact ⟨rfl, rfl⟩

/-- C1 (code bug exhibit): at `p_current = 0.999`, `kalshi_ask = 0.9`,
`seconds_remaining = 184320`, `score_diff = 0`, `period = 4` with the
default config, for every CDF collaborator satisfying the standard-normal
facts of `NormCdfSpec` — as `scipy.stats.norm.cdf` does — and every
root-finding collaborator (the Kelly result takes the brentq-free
full-Kelly branch): all four gates pass, `τ = 64` widens the volatility to
`σ = 2.24·√0.003996 ≈ 0.1416`, so `z = 0.079/σ ≈ 0.558` and survival
`≈ 0.557 < 0.70`; the recommendation is therefore `"WAIT — survival …"`,
yet `contracts = 22 > 0`.  The full-evaluation path computes sizing before
the label and never zeroes it for WAIT/SKIP labels, contradicting the
docstring "'contracts' is always 0 when recommendation contains SKIP or
WAIT" and the spec invariant. -/
theorem C1_wait_with_positive_contracts (Φ : ℝ → ℝ) (hΦ : NormCdfSpec Φ)
    (fr : FindRoot) :
    ((entry_quality Φ fr 0.999 0.9 184320 0 4
      BANKROLL USE_MAKER MIN_EDGE MIN_SURVIVAL).recommendation).mentionsWait
      = true ∧
    (entry_quality Φ fr 0.999 0.9 184320 0 4
      BANKROLL USE_MAKER MIN_EDGE MIN_SURVIVAL).contracts = 22 := by
  have hprice : normPrice 0.9 = 0.9 := by norm_num [normPrice]
  have hfee : kalshi_fee 1 (0.9 : ℝ) USE_MAKER = 0.01 := by
    rw [show USE_MAKER = true from rfl]
    rw [kalshi_fee_of_not_cents 1 true (by norm_num)]
    rw [ceilCent_eq _ 1 (by norm_num [_MAKER_RATE]) (by norm_num [_MAKER_RATE])]
    norm_num
  have hsq : (0.0632 : ℝ) ≤ Real.sqrt 0.003996 := by
    rw [show (0.0632 : ℝ) = Real.sqrt (0.0632 ^ 2) from
      (Real.sqrt_sq (by norm_num)).symm]
    exact Real.sqrt_le_sqrt (by norm_num)
  have hS : wp_survival_probability Φ 0.999 (0.9 + 0.02) 184320 0 < 0.70 := by
    simp only [wp_survival_probability]
    rw [if_neg (by norm_num : ¬ (184320 : ℤ) ≤ 0)]
    rw [show ((184320 : ℤ) : ℝ) / 2880 = 64 by push_cast; norm_num]
    rw [show Real.sqrt 64 = 8 from by
      rw [show (64 : ℝ) = 8 ^ 2 by norm_num, Real.sqrt_sq (by norm_num)]]
    rw [show max (0 : ℝ) (0.999 * (1 - 0.999) * 4) = 0.003996 by norm_num]
    have hd : (0 : ℝ) < 0.28 * 8 * Real.sqrt 0.003996 := by nlinarith [hsq]
    rw [if_neg (show ¬ 0.28 * 8 * Real.sqrt 0.003996 < 1e-6 from
      not_lt.mpr (by nlinarith [hsq]))]
    apply survival_upper Φ hΦ
    · exact div_nonneg (by norm_num) hd.le
    · rw [div_le_iff₀ hd]
      nlinarith [hsq]
  have heq := entry_quality_full_eval Φ fr
    0.999 0.9 184320 0 4 BANKROLL USE_MAKER MIN_EDGE MIN_SURVIVAL
    (by rw [hprice]; norm_num [MIN_PRICE])
    (by rw [hprice, hfee]; norm_num)
    (by rw [hprice]; norm_num [MIN_EDGE])
    (by rintro ⟨hc, -⟩; norm_num at hc)
  rw [heq, hprice, hfee]
  rw [show (1 : ℝ) - 0.9 - 0.01 = 0.09 by norm_num,
      show (0.999 : ℝ) - 0.9 = 0.099 by norm_num]
  exact C1_core fr _ _ _ hS

/-- Witness for `C1_wait_with_positive_contracts`: the tangent line
`x ↦ 1/2 + 0.4·x` satisfies all three `NormCdfSpec` facts (exact symmetry,
monotonicity, and the bound with equality), and the root-finder is never
consulted on this input. -/
theorem C1_witness :
    ((entry_quality (fun x => 1/2 + 0.4 * x) (fun _ _ _ => none) 0.999 0.9
      184320 0 4 BANKROLL USE_MAKER MIN_EDGE
      MIN_SURVIVAL).recommendation).mentionsWait = true ∧
    (entry_quality (fun x => 1/2 + 0.4 * x) (fun _ _ _ => none) 0.999 0.9
      184320 0 4 BANKROLL USE_MAKER MIN_EDGE MIN_SURVIVAL).contracts = 22 :=
  C1_wait_with_positive_contracts (fun x => 1/2 + 0.4 * x)
    ⟨fun x => by ring, fun a b hab => by dsimp only; linarith,
      fun x hx => le_refl _⟩
    (fun _ _ _ => none)

/-! ## Totality of the checked engine (C8) -/

lemma exceptBind_ok {α β : Type} (a : α) (f : α → Except String β) :
    (Except.ok a >>= f) = f a := rfl

lemma divE_ok {a b : ℝ} (h : b ≠ 0) : divE a b = .ok (a / b) := if_neg h

lemma sqrtE_ok {x : ℝ} (h : 0 ≤ x) : sqrtE x = .ok (Real.sqrt x) :=
  if_neg (not_lt.mpr h)

lemma normPriceE_ok (price : ℝ) : normPriceE price = .ok (normPrice price) := by
  simp only [normPriceE, normPrice]
  split_ifs with h
  · exact divE_ok (by norm_num)
  · rfl

lemma kalshi_feeE_ok (n : ℤ) (price : ℝ) (maker : Bool) :
    kalshi_feeE n price maker = .ok (kalshi_fee n price maker) := by
  simp only [kalshi_feeE, kalshi_fee, normPriceE_ok, exceptBind_ok]
  rfl

lemma _drawdown_probE_ok (p b f D : ℝ) (n : ℤ) :
    _drawdown_probE p b f D n = .ok (_drawdown_prob p b f D n) := by
  simp only [_drawdown_probE, _drawdown_prob]
  split_ifs with h
  · rfl
  · have hvar : (_log_return_moments p b f).2 ≠ 0 := by
      rcases not_or.mp h with ⟨-, h2⟩
      exact ne_of_gt (lt_of_not_le h2)
    simp only [divE_ok hvar, exceptBind_ok]
    rfl

lemma wp_volatility_remainingE_ok (p : ℝ) (s : ℤ) :
    wp_volatility_remainingE p s = .ok (wp_volatility_remaining p s) := by
  simp only [wp_volatility_remainingE, wp_volatility_remaining,
    divE_ok (show (2880 : ℝ) ≠ 0 by norm_num), exceptBind_ok,
    sqrtE_ok (le_max_left _ _)]
  rfl

lemma wp_survival_probabilityE_ok (Φ : ℝ → ℝ) (p pf : ℝ) (s sd : ℤ) :
    wp_survival_probabilityE Φ p pf s sd =
      .ok (wp_survival_probability Φ p pf s sd) := by
  by_cases h1 : s ≤ 0
  · simp only [wp_survival_probabilityE, wp_survival_probability, if_pos h1]
    rfl
  · have hs : (0 : ℝ) ≤ (s : ℝ) / 2880 := by
      have hpos : (0 : ℝ) < (s : ℝ) := by exact_mod_cast lt_of_not_le h1
      positivity
    simp only [wp_survival_probabilityE, wp_survival_probability, if_neg h1,
      divE_ok (show (2880 : ℝ) ≠ 0 by norm_num), exceptBind_ok,
      sqrtE_ok hs, sqrtE_ok (le_max_left (0 : ℝ) (p * (1 - p) * 4))]
    by_cases h2 : 0.28 * Real.sqrt ((s : ℝ) / 2880) *
        Real.sqrt (max 0 (p * (1 - p) * 4)) < 1e-6
    · rw [if_pos h2, if_pos h2]
      rfl
    · rw [if_neg h2, if_neg h2]
      have hvol : 0.28 * Real.sqrt ((s : ℝ) / 2880) *
          Real.sqrt (max 0 (p * (1 - p) * 4)) ≠ 0 :=
        ne_of_gt (lt_of_lt_of_le (by norm_num) (not_lt.mp h2))
      simp only [divE_ok hvol, exceptBind_ok]
      rfl

lemma max_kellyE_ok (fr : FindRoot) (p b D confidence : ℝ) (n : ℤ) (hb : b ≠ 0) :
    max_kelly_for_drawdown_constraintE fr p b D confidence n =
      .ok (max_kelly_for_drawdown_constraint fr p b D confidence n) := by
  simp only [max_kelly_for_drawdown_constraintE, max_kelly_for_drawdown_constraint,
    divE_ok hb, exceptBind_ok, _drawdown_probE_ok]
  by_cases h1 : (b * p - (1 - p)) / b ≤ 0
  · rw [if_pos h1, if_pos h1]
    rfl
  rw [if_neg h1, if_neg h1]
  by_cases h2 : _drawdown_prob p b ((b * p - (1 - p)) / b) D n ≤ 1 - confidence
  · rw [if_pos h2, if_pos h2]
    rfl
  rw [if_neg h2, if_neg h2]
  rcases hroot : fr (fun f => _drawdown_prob p b f D n - (1 - confidence)) 1e-6
      ((b * p - (1 - p)) / b) with _ | r
  · rfl
  · simp only [divE_ok (ne_of_gt (lt_of_not_le h1)), exceptBind_ok,
      _drawdown_probE_ok]
    rfl

lemma fullEvaluationE_ok (fr : FindRoot)
    (pc price nw re S vr vn bank ms : ℝ) (hprice : 0 < price) (hms : ms ≠ 1) :
    fullEvaluationE fr pc price nw re S vr vn bank ms =
      .ok (fullEvaluation fr pc price nw re S vr vn bank ms) := by
  have hms' : (1 : ℝ) - ms ≠ 0 := sub_ne_zero_of_ne (Ne.symm hms)
  simp only [fullEvaluationE, fullEvaluation]
  by_cases hk : 0 < nw ∧ 0 < re
  · rw [if_pos hk, if_pos hk]
    have hbne : nw / price ≠ 0 := ne_of_gt (div_pos hk.1 hprice)
    simp only [divE_ok (ne_of_gt hprice), exceptBind_ok,
      max_kellyE_ok fr pc (nw / price) 0.25 0.95 250 hbne, divE_ok hms']
    by_cases hsz :
        (max_kelly_for_drawdown_constraint fr pc (nw / price) 0.25 0.95
          250).valid = true ∧
        0 < (max_kelly_for_drawdown_constraint fr pc (nw / price) 0.25 0.95
          250).f_max
    · rw [if_pos hsz, if_pos hsz]
      rfl
    · rw [if_neg hsz, if_neg hsz]
      rfl
  · rw [if_neg hk, if_neg hk]
    simp only [pure_bind, divE_ok hms', exceptBind_ok]
    have hc : ¬ (false = true ∧ (0 : ℝ) < 0) := by simp
    rw [if_neg hc, if_neg hc]
    rfl

lemma entry_qualityE_ok (Φ : ℝ → ℝ) (fr : FindRoot) (p ask : ℝ) (s sd per : ℤ)
    (bank : ℝ) (maker : Bool) (me ms : ℝ) (hms : ms ≠ 1) :
    entry_qualityE Φ fr p ask s sd per bank maker me ms =
      .ok (entry_quality Φ fr p ask s sd per bank maker me ms) := by
  have hvel : ((max s 60 : ℤ) : ℝ) ≠ 0 := by
    have h60 : (0 : ℤ) < max s 60 := lt_of_lt_of_le (by norm_num) (le_max_right _ _)
    exact ne_of_gt (by exact_mod_cast h60)
  simp only [entry_qualityE, entry_quality, normPriceE_ok, kalshi_feeE_ok,
    wp_volatility_remainingE_ok, wp_survival_probabilityE_ok, exceptBind_ok,
    divE_ok hvel]
  by_cases h1 : normPrice ask < MIN_PRICE / 100
  · rw [if_pos h1, if_pos h1]
    rfl
  rw [if_neg h1, if_neg h1]
  by_cases h2 : 1 - normPrice ask - kalshi_fee 1 ask maker ≤ 0
  · rw [if_pos h2, if_pos h2]
    rfl
  rw [if_neg h2, if_neg h2]
  by_cases h3 : p - normPrice ask ≤ me
  · rw [if_pos h3, if_pos h3]
    rfl
  rw [if_neg h3, if_neg h3]
  by_cases h4 : per < 4 ∧ ¬ (is_effectively_locked sd s = true)
  · rw [if_pos h4, if_pos h4]
    rfl
  rw [if_neg h4, if_neg h4]
  exact fullEvaluationE_ok fr p (normPrice ask) _ _ _ _ _ bank ms
    (lt_of_lt_of_le (show (0 : ℝ) < MIN_PRICE / 100 by norm_num [MIN_PRICE])
      (not_lt.mp h1)) hms

/-- C8: totality of the engine.  For inputs in the normal numeric ranges
(`p_current ∈ (0,1)`, any numeric price, `seconds_remaining ≥ 0`,
`bankroll > 0`, default maker/edge/survival config; for the sizer a
non-degenerate odds ratio `b > 0`), the exception-checked copies of
`entry_quality` and `max_kelly_for_drawdown_constraint` return `Except.ok`
of the unchecked result: every division-by-zero and degenerate path (zero
time remaining, zero volatility, non-positive edge, zero denominators, an
unbracketed root) is covered by an explicit guarded branch, and no
exception escapes. -/
theorem C8_no_exceptions (Φ : ℝ → ℝ) (fr : FindRoot) (p ask : ℝ) (s sd per : ℤ)
    (bank : ℝ) (hp : 0 < p ∧ p < 1) (hs : 0 ≤ s) (hbank : 0 < bank)
    (b D confidence : ℝ) (n : ℤ) (hb : 0 < b) :
    entry_qualityE Φ fr p ask s sd per bank USE_MAKER MIN_EDGE MIN_SURVIVAL =
      .ok (entry_quality Φ fr p ask s sd per bank USE_MAKER MIN_EDGE
        MIN_SURVIVAL) ∧
    max_kelly_for_drawdown_constraintE fr p b D confidence n =
      .ok (max_kelly_for_drawdown_constraint fr p b D confidence n) :=
  ⟨entry_qualityE_ok Φ fr p ask s sd per bank USE_MAKER MIN_EDGE MIN_SURVIVAL
      (by norm_num [MIN_SURVIVAL]),
    max_kellyE_ok fr p b D confidence n (ne_of_gt hb)⟩

/-- Witness for `C8_no_exceptions` on a concrete in-range input. -/
theorem C8_witness :
    entry_qualityE (fun _ => 1/2) (fun _ _ _ => none) 0.85 0.79 300 7 4 288
        USE_MAKER MIN_EDGE MIN_SURVIVAL =
      .ok (entry_quality (fun _ => 1/2) (fun _ _ _ => none) 0.85 0.79 300 7 4 288
        USE_MAKER MIN_EDGE MIN_SURVIVAL) ∧
    max_kelly_for_drawdown_constraintE (fun _ _ _ => none) 0.85 0.2 0.25 0.95 250 =
      .ok (max_kelly_for_drawdown_constraint (fun _ _ _ => none) 0.85 0.2 0.25
        0.95 250) :=
  C8_no_exceptions (fun _ => 1/2) (fun _ _ _ => none) 0.85 0.79 300 7 4 288
    (by norm_num) (by norm_num) (by norm_num) 0.2 0.25 0.95 250 (by norm_num)

end Stuart
